import Mathlib

/-!
Verification of the `team01_AsyNAF_1.py` module of the NTIRE24 ISR x4
repository: a shallow embedding of the `UnPixelShuffle`, `AvgPool2d`
and `replace_layers` utilities and of the shape behaviour of the
`RLFN_Prune` network, together with theorems settling the frozen claims
about them.

Tensors are embedded as a shape `(n, c, h, w)` together with a total
valuation function on indices; machine floats are replaced by exact
rationals, and operations that raise a runtime error in the original
code are embedded as `Option`-valued functions returning `none` there.
-/

namespace Spec2Proof

/-- A 4-D tensor: batch `n`, channels `c`, height `h`, width `w`, and a
total valuation function on indices (values outside the shape are junk). -/
structure Tensor4 where
  n : ℕ
  c : ℕ
  h : ℕ
  w : ℕ
  val : ℕ → ℕ → ℕ → ℕ → ℚ

/-- Model of `t.cumsum(dim=-1)`: running sums along the last (width) axis. -/
def cumsumW (x : Tensor4) : Tensor4 :=
  ⟨x.n, x.c, x.h, x.w, fun b c i j => ∑ t ∈ Finset.range (j + 1), x.val b c i t⟩

/-- Model of `t.cumsum(dim=-2)`: running sums along the height axis. -/
def cumsumH (x : Tensor4) : Tensor4 :=
  ⟨x.n, x.c, x.h, x.w, fun b c i j => ∑ t ∈ Finset.range (i + 1), x.val b c t j⟩

/-- Model of `torch.nn.functional.pad(s, (1, 0, 1, 0))`: one row of zeros on
top and one column of zeros on the left. -/
def padTL (x : Tensor4) : Tensor4 :=
  ⟨x.n, x.c, x.h + 1, x.w + 1, fun b c i j =>
    if i = 0 ∨ j = 0 then 0 else x.val b c (i - 1) (j - 1)⟩

/-- Length of the Python slice `a[:-k]` (equivalently of `a[k:]`) applied to a
dimension of length `len`: for `k = 0` the slice `[:-0]` is empty. -/
def sliceLen (len k : ℕ) : ℕ := if k = 0 then 0 else len - k

/-- Model of `F.adaptive_avg_pool2d(x, 1)` (documented PyTorch semantics):
each channel map is reduced to its 1x1 global mean. -/
def adaptiveAvgPool1 (x : Tensor4) : Tensor4 :=
  ⟨x.n, x.c, 1, 1, fun b c _ _ =>
    (∑ i ∈ Finset.range x.h, ∑ j ∈ Finset.range x.w, x.val b c i j) /
      ((x.h : ℚ) * (x.w : ℚ))⟩

/-- Reference definition taken from the specification's words: the naive
sliding-window arithmetic mean of the `k1 × k2` window of `x` whose top-left
corner is `(i, j)`. -/
def windowMean (x : Tensor4) (k1 k2 : ℕ) (b c i j : ℕ) : ℚ :=
  (∑ a ∈ Finset.range k1, ∑ t ∈ Finset.range k2, x.val b c (i + a) (j + t)) /
    ((k1 : ℚ) * (k2 : ℚ))

/-- The attributes of an `AvgPool2d` module instance, as set by `__init__`
and possibly updated by `forward`. `base_size` may hold an `int` (`Sum.inl`)
or a pair (`Sum.inr`); `train_size` keeps the 4-tuple passed in. -/
structure AvgPool2d where
  kernel_size : Option (ℕ × ℕ)
  base_size : Option (ℕ ⊕ ℕ × ℕ)
  auto_pad : Bool
  fast_imp : Bool
  train_size : Option (ℕ × ℕ × ℕ × ℕ)
  rs : List ℕ
  max_r1 : ℕ
  max_r2 : ℕ
deriving DecidableEq

/-- Model of `AvgPool2d.__init__`: stores the constructor arguments and sets
`rs = [5, 4, 3, 2, 1]`, `max_r1 = max_r2 = rs[0]`. -/
def AvgPool2d.init (kernel_size : Option (ℕ × ℕ) := none)
    (base_size : Option (ℕ ⊕ ℕ × ℕ) := none)
    (auto_pad : Bool := true) (fast_imp : Bool := false)
    (train_size : Option (ℕ × ℕ × ℕ × ℕ) := none) : AvgPool2d :=
  { kernel_size := kernel_size
    base_size := base_size
    auto_pad := auto_pad
    fast_imp := fast_imp
    train_size := train_size
    rs := [5, 4, 3, 2, 1]
    max_r1 := [5, 4, 3, 2, 1].headI
    max_r2 := [5, 4, 3, 2, 1].headI }

/-- The last two components of a stored `train_size` 4-tuple
(`train_size[-2]`, `train_size[-1]`). -/
def tsLast2 (t : ℕ × ℕ × ℕ × ℕ) : ℕ × ℕ := (t.2.2.1, t.2.2.2)

/-- `base_size` normalised to a pair, as by
`if isinstance(self.base_size, int): self.base_size = (b, b)`. -/
def toPair : ℕ ⊕ ℕ × ℕ → ℕ × ℕ
  | .inl b => (b, b)
  | .inr p => p

/-- Python truthiness of the `base_size` attribute: `None` and `0` are falsy,
a nonzero `int` and any tuple are truthy. -/
def baseTruthy : Option (ℕ ⊕ ℕ × ℕ) → Bool
  | none => false
  | some (.inl b) => b != 0
  | some (.inr _) => true

/-- Model of the state-updating prologue of `AvgPool2d.forward` (lines 59-69):
when `kernel_size is None and self.base_size`, the kernel and the maximal
subsampling rates are computed from the input shape and `train_size` and
stored on `self`; reading `train_size[-2]` of a missing `train_size` raises
(`none`). -/
def resolveState (st : AvgPool2d) (x : Tensor4) : Option AvgPool2d :=
  if st.kernel_size = none ∧ baseTruthy st.base_size = true then
    match st.train_size, st.base_size with
    | some ts, some bs =>
      some { st with
        base_size := some (.inr (toPair bs))
        kernel_size := some (x.h * (toPair bs).1 / (tsLast2 ts).1,
                             x.w * (toPair bs).2 / (tsLast2 ts).2)
        max_r1 := max 1 (st.rs.headI * x.h / (tsLast2 ts).1)
        max_r2 := max 1 (st.rs.headI * x.w / (tsLast2 ts).2) }
    | _, _ => none
  else some st

/-- The list comprehension `[r for r in self.rs if d % r == 0]` used to pick
the subsampling rates in the fast branch of `AvgPool2d.forward`. -/
def rCandidates (rs : List ℕ) (d : ℕ) : List ℕ := rs.filter (fun r => d % r = 0)

/-- Model of the `fast_imp` branch of `AvgPool2d.forward` (lines 74-88):
subsampled integral image plus nearest-neighbour interpolation. An empty
candidate list, a zero slice step, or an empty tensor fed to `interpolate`
raises (`none`). -/
def fastBranch (st : AvgPool2d) (k : ℕ × ℕ) (x : Tensor4) : Option Tensor4 :=
  if x.h ≤ k.1 ∧ x.w ≤ k.2 then some (adaptiveAvgPool1 x)
  else
    match (rCandidates st.rs x.h).head?, (rCandidates st.rs x.w).head? with
    | some ra, some rb =>
      let r1 := min st.max_r1 ra
      let r2 := min st.max_r2 rb
      if r1 = 0 ∨ r2 = 0 then none
      else
        let sub : Tensor4 :=
          ⟨x.n, x.c, (x.h + (r1 - 1)) / r1, (x.w + (r2 - 1)) / r2,
            fun b c i j => x.val b c (i * r1) (j * r2)⟩
        let s := cumsumH (cumsumW sub)
        let k1 := min (sub.h - 1) (k.1 / r1)
        let k2 := min (sub.w - 1) (k.2 / r2)
        let out : Tensor4 :=
          ⟨x.n, x.c, sliceLen sub.h k1, sliceLen sub.w k2,
            fun b c i j =>
              (s.val b c i j - s.val b c i (j + k2) - s.val b c (i + k1) j +
                s.val b c (i + k1) (j + k2)) / ((k1 : ℚ) * (k2 : ℚ))⟩
        if out.h = 0 ∨ out.w = 0 then none
        else
          some ⟨out.n, out.c, out.h * r1, out.w * r2,
            fun b c i j => out.val b c (i / r1) (j / r2)⟩
    | _, _ => none

/-- Model of the exact integral-image branch of `AvgPool2d.forward`
(lines 89-96): double cumulative sum, zero pad, four-corner difference,
division by `k1 * k2` with `k1 = min(h, kernel_size[0])`,
`k2 = min(w, kernel_size[1])`. -/
def slowBranch (k : ℕ × ℕ) (x : Tensor4) : Tensor4 :=
  let s := padTL (cumsumH (cumsumW x))
  let k1 := min x.h k.1
  let k2 := min x.w k.2
  ⟨x.n, x.c, sliceLen s.h k1, sliceLen s.w k2,
    fun b c i j =>
      (s.val b c (i + k1) (j + k2) + s.val b c i j - s.val b c i (j + k2) -
        s.val b c (i + k1) j) / ((k1 : ℚ) * (k2 : ℚ))⟩

/-- Model of the `auto_pad` epilogue of `AvgPool2d.forward` (lines 98-103):
replicate padding of the valid-window output back by
`((w - _w) // 2, (w - _w + 1) // 2, (h - _h) // 2, (h - _h + 1) // 2)`;
replicate-padding an empty tensor raises (`none`). -/
def autoPadOpt (x out : Tensor4) : Option Tensor4 :=
  if out.h = 0 ∨ out.w = 0 then none
  else
    let padt := (x.h - out.h) / 2
    let padl := (x.w - out.w) / 2
    some ⟨x.n, x.c, out.h + padt + (x.h - out.h + 1) / 2,
      out.w + padl + (x.w - out.w + 1) / 2,
      fun b c i j =>
        out.val b c (min (i - padt) (out.h - 1)) (min (j - padl) (out.w - 1))⟩

/-- Model of `AvgPool2d.forward`: state-updating prologue, global-pooling
shortcut when the kernel covers the whole feature map, fast or exact
sliding-window branch, and optional replicate padding; the updated module
state is returned alongside the output. -/
def AvgPool2d.forward (st : AvgPool2d) (x : Tensor4) :
    Option (AvgPool2d × Tensor4) :=
  (resolveState st x).bind fun st1 =>
    st1.kernel_size.bind fun k =>
      if x.h ≤ k.1 ∧ x.w ≤ k.2 then some (st1, adaptiveAvgPool1 x)
      else
        ((if st1.fast_imp then fastBranch st1 k x
          else some (slowBranch k x)).bind fun out0 =>
          (if st1.auto_pad then autoPadOpt x out0 else some out0).map
            fun out1 => (st1, out1))

/-- One strided chunk `x[..., i:H:r, j:W:r]` collected by the double loop of
`UnPixelShuffle.forward`: dimension lengths follow Python slice semantics
(`ceil((H - i) / r)`). -/
def chunkSlice (r i j : ℕ) (x : Tensor4) : Tensor4 :=
  ⟨x.n, x.c, (x.h - i + (r - 1)) / r, (x.w - j + (r - 1)) / r,
    fun b c y t => x.val b c (i + y * r) (j + t * r)⟩

/-- Model of `torch.cat(chunk_list, dim=1)`: channel-wise concatenation of a
list of tensors, batch and spatial sizes taken from the first element. -/
def catDim1 : List Tensor4 → Tensor4
  | [] => ⟨0, 0, 0, 0, fun _ _ _ _ => 0⟩
  | t :: ts =>
    let rest := catDim1 ts
    ⟨t.n, t.c + rest.c, t.h, t.w, fun b c y xx =>
      if c < t.c then t.val b c y xx else rest.val b (c - t.c) y xx⟩

/-- The chunk list built by the double loop of `UnPixelShuffle.forward`:
chunk `(i, j)` sits at position `i * r + j`. -/
def chunkList (r : ℕ) (x : Tensor4) : List Tensor4 :=
  (List.range r).flatMap (fun i => (List.range r).map (fun j => chunkSlice r i j x))

/-- The gather index list built by `UnPixelShuffle.forward`: position
`i * r^2 + j` holds the value `i + j * C`. -/
def gatherIndex (C r : ℕ) : List ℕ :=
  (List.range C).flatMap (fun i => (List.range (r ^ 2)).map (fun j => i + j * C))

/-- Model of `UnPixelShuffle.forward`: strided chunks concatenated along the
channel axis, then `torch.gather` along dim 1 with the index tensor repeated
to shape `(N, C * r^2, H // r, W // r)` (which is therefore the output
shape). -/
def UnPixelShuffle.forward (r : ℕ) (x : Tensor4) : Tensor4 :=
  let cat := catDim1 (chunkList r x)
  let idx := gatherIndex x.c r
  ⟨x.n, idx.length, x.h / r, x.w / r,
    fun b c y xx => cat.val b (idx.getD c 0) y xx⟩

/-- Model of `nn.PixelShuffle(r)` (documented PyTorch semantics, as used in
`pixelshuffle_block`): output position `(b, c, y, x)` reads input channel
`c * r^2 + (y % r) * r + (x % r)` at position `(y / r, x / r)`. -/
def pixelShuffle (r : ℕ) (t : Tensor4) : Tensor4 :=
  ⟨t.n, t.c / r ^ 2, t.h * r, t.w * r, fun b c y xx =>
    t.val b (c * r ^ 2 + (y % r) * r + xx % r) (y / r) (xx / r)⟩

mutual

/-- A PyTorch module tree as seen by `replace_layers`: an
`nn.AdaptiveAvgPool2d` leaf carrying its `output_size`, an `AvgPool2d` leaf
carrying its attribute record, or a module of any other class with a list of
named children. -/
inductive Module where
  | adaptive (output_size : ℕ) : Module
  | pool (st : AvgPool2d) : Module
  | other (tag : ℕ) (children : Children) : Module
deriving DecidableEq

/-- The ordered `named_children()` list of a module. -/
inductive Children where
  | nil : Children
  | cons (name : ℕ) (m : Module) (rest : Children) : Children
deriving DecidableEq

end

/-- The `AvgPool2d(base_size=base_size, fast_imp=fast_imp,
train_size=train_size)` instance freshly constructed by `replace_layers`. -/
def mkPool (bs : Option (ℕ ⊕ ℕ × ℕ)) (ts : Option (ℕ × ℕ × ℕ × ℕ))
    (fi : Bool) : AvgPool2d :=
  AvgPool2d.init none bs true fi ts

mutual

/-- Model of `replace_layers(model, base_size, train_size, fast_imp)`: walk
the children in order, recurse into compound children first, then replace an
`nn.AdaptiveAvgPool2d` child after asserting `output_size == 1`. The Bool is
`false` when the assertion raised; the returned tree keeps every replacement
performed before the raise (the rewrite is done by in-place `setattr`). -/
def replace_layers (bs : Option (ℕ ⊕ ℕ × ℕ)) (ts : Option (ℕ × ℕ × ℕ × ℕ))
    (fi : Bool) : Module → Module × Bool
  | .adaptive sz => (.adaptive sz, true)
  | .pool st => (.pool st, true)
  | .other tag cs =>
    let r := replaceChildren bs ts fi cs
    (.other tag r.1, r.2)

/-- The loop body of `replace_layers` over the `named_children()` list. -/
def replaceChildren (bs : Option (ℕ ⊕ ℕ × ℕ)) (ts : Option (ℕ × ℕ × ℕ × ℕ))
    (fi : Bool) : Children → Children × Bool
  | .nil => (.nil, true)
  | .cons nm m rest =>
    let rm := replace_layers bs ts fi m
    if rm.2 then
      match rm.1 with
      | .adaptive sz =>
        if sz = 1 then
          let rr := replaceChildren bs ts fi rest
          (.cons nm (.pool (mkPool bs ts fi)) rr.1, rr.2)
        else (.cons nm rm.1 rest, false)
      | m' =>
        let rr := replaceChildren bs ts fi rest
        (.cons nm m' rr.1, rr.2)
    else (.cons nm rm.1 rest, false)

end

mutual

/-- Whether every `nn.AdaptiveAvgPool2d` node of the tree (the root
included) has `output_size == 1`. -/
def allAdaptiveOne : Module → Bool
  | .adaptive sz => sz == 1
  | .pool _ => true
  | .other _ cs => allAdaptiveOneC cs

/-- `allAdaptiveOne` over a children list. -/
def allAdaptiveOneC : Children → Bool
  | .nil => true
  | .cons _ m rest => allAdaptiveOne m && allAdaptiveOneC rest

end

mutual

/-- Whether an `nn.AdaptiveAvgPool2d` node occurs anywhere in the tree,
the root included. -/
def containsAdaptive : Module → Bool
  | .adaptive _ => true
  | .pool _ => false
  | .other _ cs => containsAdaptiveC cs

/-- `containsAdaptive` over a children list. -/
def containsAdaptiveC : Children → Bool
  | .nil => false
  | .cons _ m rest => containsAdaptive m || containsAdaptiveC rest

end

mutual

/-- Whether an `nn.AdaptiveAvgPool2d` node with `output_size != 1` occurs
anywhere in the tree, the root included. -/
def containsBadAdaptive : Module → Bool
  | .adaptive sz => !(sz == 1)
  | .pool _ => false
  | .other _ cs => containsBadAdaptiveC cs

/-- `containsBadAdaptive` over a children list. -/
def containsBadAdaptiveC : Children → Bool
  | .nil => false
  | .cons _ m rest => containsBadAdaptive m || containsBadAdaptiveC rest

end

/-- Whether an `nn.AdaptiveAvgPool2d` occurs among the proper submodules of
the root (the root module itself is not its own submodule). -/
def hasAdaptiveSub : Module → Bool
  | .other _ cs => containsAdaptiveC cs
  | _ => false

/-- Whether an `nn.AdaptiveAvgPool2d` with `output_size != 1` occurs among
the proper submodules of the root. -/
def hasBadAdaptiveSub : Module → Bool
  | .other _ cs => containsBadAdaptiveC cs
  | _ => false

mutual

/-- Reference rewrite taken from the specification's words: replace every
`nn.AdaptiveAvgPool2d` submodule (the root itself is never replaced) by a
fresh `AvgPool2d` carrying the given `base_size`, `fast_imp` and
`train_size`, and leave every module of any other class in place. -/
def rewriteSpec (bs : Option (ℕ ⊕ ℕ × ℕ)) (ts : Option (ℕ × ℕ × ℕ × ℕ))
    (fi : Bool) : Module → Module
  | .adaptive sz => .adaptive sz
  | .pool st => .pool st
  | .other tag cs => .other tag (rewriteSpecC bs ts fi cs)

/-- `rewriteSpec` over a children list: each adaptive child becomes a fresh
`AvgPool2d`, other children are rewritten recursively. -/
def rewriteSpecC (bs : Option (ℕ ⊕ ℕ × ℕ)) (ts : Option (ℕ × ℕ × ℕ × ℕ))
    (fi : Bool) : Children → Children
  | .nil => .nil
  | .cons nm (.adaptive _) rest => .cons nm (.pool (mkPool bs ts fi)) (rewriteSpecC bs ts fi rest)
  | .cons nm m rest => .cons nm (rewriteSpec bs ts fi m) (rewriteSpecC bs ts fi rest)

end

/-- A tensor shape `(n, c, h, w)`; the RLFN claims are about shapes only, so
the network is embedded at shape level. -/
structure Shape4 where
  n : ℕ
  c : ℕ
  h : ℕ
  w : ℕ
deriving DecidableEq

/-- Shape semantics of `nn.Conv2d(inC, outC, k, stride=s, padding=p)`
(documented PyTorch behaviour): output spatial size
`(size + 2p - k) // s + 1`; a channel mismatch or a non-positive output size
raises (`none`). -/
def conv2dShape (inC outC k p s : ℕ) (sh : Shape4) : Option Shape4 :=
  if sh.c = inC ∧ k ≤ sh.h + 2 * p ∧ k ≤ sh.w + 2 * p then
    some ⟨sh.n, outC, (sh.h + 2 * p - k) / s + 1, (sh.w + 2 * p - k) / s + 1⟩
  else none

/-- Shape semantics of `conv_layer(inC, outC, k)` from the source: a
convolution with adaptive padding `((k - 1) // 2, (k - 1) // 2)` and stride
1; with `depth_wise=True` it is a conv / LeakyReLU / 1x1-conv sequence with
the same shape behaviour. -/
def conv_layerShape (inC outC k : ℕ) (dw : Bool) (sh : Shape4) : Option Shape4 :=
  if dw then
    match conv2dShape inC outC k ((k - 1) / 2) 1 sh with
    | none => none
    | some s1 => conv2dShape outC outC 1 0 1 s1
  else conv2dShape inC outC k ((k - 1) / 2) 1 sh

/-- Shape semantics of `F.max_pool2d(t, kernel_size=k, stride=s)` with the
default `ceil_mode=False`: output size `(size - k) // s + 1`; an input
smaller than the kernel raises (`none`). -/
def maxPool2dShape (k s : ℕ) (sh : Shape4) : Option Shape4 :=
  if k ≤ sh.h ∧ k ≤ sh.w then
    some ⟨sh.n, sh.c, (sh.h - k) / s + 1, (sh.w - k) / s + 1⟩
  else none

/-- Shape semantics of `F.interpolate(t, (H, W), mode=bilinear)`: the
spatial size becomes exactly `(H, W)`; an empty input raises (`none`). -/
def interpToShape (H W : ℕ) (sh : Shape4) : Option Shape4 :=
  if 0 < sh.h ∧ 0 < sh.w then some ⟨sh.n, sh.c, H, W⟩ else none

/-- Shape semantics of `F.interpolate(t, scale_factor=r, mode=bilinear)`. -/
def interpScaleShape (r : ℕ) (sh : Shape4) : Option Shape4 :=
  if 0 < sh.h ∧ 0 < sh.w then some ⟨sh.n, sh.c, sh.h * r, sh.w * r⟩ else none

/-- Shape semantics of an elementwise binary operation (`+` or `*`) of two
tensors: the shapes must agree. -/
def elemwiseShape (a b : Shape4) : Option Shape4 :=
  if a = b then some a else none

/-- Shape semantics of `nn.PixelShuffle(r)`: channels divided by `r^2`
(raising when not divisible), spatial sizes multiplied by `r`. -/
def pixelShuffleShape (r : ℕ) (sh : Shape4) : Option Shape4 :=
  if r ^ 2 ∣ sh.c then some ⟨sh.n, sh.c / r ^ 2, sh.h * r, sh.w * r⟩ else none

/-- Shape semantics of `ESA.forward` (`esa_channels = f`, `n_feats`): 1x1
conv, strided 3x3 conv, 7x7/3 max pool, 3x3 conv, bilinear resize back to
the input's spatial size, skip 1x1 conv, sum, 1x1 conv, sigmoid, and the
elementwise product `x * m`. -/
def ESAShape (f nfeats : ℕ) (sh : Shape4) : Option Shape4 := do
  let c1u ← conv2dShape nfeats f 1 0 1 sh
  let c1 ← conv2dShape f f 3 0 2 c1u
  let vmax ← maxPool2dShape 7 3 c1
  let c3a ← conv2dShape f f 3 1 1 vmax
  let c3 ← interpToShape sh.h sh.w c3a
  let cf ← conv2dShape f f 1 0 1 c1u
  let s4 ← elemwiseShape c3 cf
  let c4 ← conv2dShape f nfeats 1 0 1 s4
  elemwiseShape sh c4

/-- Shape semantics of `RLFB.forward` with `out_channels = in_channels` (the
default) and `esa_channels = 16`: three 3x3 conv_layers (the middle one
depth-wise), residual sum, 1x1 conv_layer, then ESA. -/
def RLFBShape (inC midC : ℕ) (sh : Shape4) : Option Shape4 := do
  let o1 ← conv_layerShape inC midC 3 false sh
  let o2 ← conv_layerShape midC midC 3 true o1
  let o3 ← conv_layerShape midC inC 3 false o2
  let s ← elemwiseShape o3 sh
  let c5 ← conv_layerShape inC inC 1 false s
  ESAShape 16 inC c5

/-- Shape semantics of `RLFN_Prune.forward` with the constructor defaults
`in_channels = 3`, `out_channels = 3`, `feature_channels = 46`,
`mid_channels = 48`, `upscale = 4`: stem conv, four RLFBs, conv plus
residual, conv to `out * 16` channels followed by `nn.PixelShuffle(4)`, and
a final sum with the 4x bilinear interpolation of the input. -/
def RLFN_PruneShape (sh : Shape4) : Option Shape4 := do
  let f ← conv_layerShape 3 46 3 false sh
  let b1 ← RLFBShape 46 48 f
  let b2 ← RLFBShape 46 48 b1
  let b3 ← RLFBShape 46 48 b2
  let b4 ← RLFBShape 46 48 b3
  let c2 ← conv_layerShape 46 46 3 false b4
  let low ← elemwiseShape c2 f
  let up ← conv_layerShape 46 (3 * 4 ^ 2) 3 false low
  let ps ← pixelShuffleShape 4 up
  let itp ← interpScaleShape 4 sh
  elemwiseShape ps itp

/-- The all-zero empty tensor, used as a default value. -/
def zeroT : Tensor4 := ⟨0, 0, 0, 0, fun _ _ _ _ => 0⟩

instance : Inhabited Tensor4 := ⟨zeroT⟩

/-- A concrete 1x1x3x4 test tensor with entries `i * 4 + j`. -/
def exX : Tensor4 := ⟨1, 1, 3, 4, fun _ _ i j => (i : ℚ) * 4 + j⟩

/-- A concrete 1x1x2x2 test tensor with entries `i * 2 + j`. -/
def exY : Tensor4 := ⟨1, 1, 2, 2, fun _ _ i j => (i : ℚ) * 2 + j⟩

/-- An `AvgPool2d` constructed with an explicit 2x2 kernel. -/
def exPoolS : AvgPool2d := AvgPool2d.init (some (2, 2)) none true false none

/-- An `AvgPool2d` constructed with an explicit 5x5 kernel (global for
`exX`). -/
def exPoolG : AvgPool2d := AvgPool2d.init (some (5, 5)) none true false none

/-- An `AvgPool2d` constructed with `kernel_size=None`, `base_size=(6, 6)`
and `train_size=(1, 3, 4, 4)`, forcing the kernel to be resolved on the
first `forward` call. -/
def exPoolR : AvgPool2d :=
  AvgPool2d.init none (some (.inr (6, 6))) true false (some (1, 3, 4, 4))

/-- A module tree whose adaptive-pooling nodes all have `output_size == 1`. -/
def goodTree : Module :=
  .other 0 (.cons 1 (.adaptive 1)
    (.cons 2 (.other 3 (.cons 4 (.adaptive 1) .nil)) .nil))

/-- A module tree whose second child is an adaptive-pooling node with
`output_size == 5`, preceded by a well-formed adaptive node. -/
def badTree : Module :=
  .other 0 (.cons 1 (.adaptive 1)
    (.cons 2 (.adaptive 5) (.cons 3 (.adaptive 1) .nil)))

/-- The rectangular prefix sum of a tensor channel:
`boxSum x b c p q = ∑ a < p, ∑ t < q, x[b, c, a, t]`. -/
def boxSum (x : Tensor4) (b c p q : ℕ) : ℚ :=
  ∑ a ∈ Finset.range p, ∑ t ∈ Finset.range q, x.val b c a t

lemma padTL_cumsum_val (x : Tensor4) (b c p q : ℕ) :
    (padTL (cumsumH (cumsumW x))).val b c p q = boxSum x b c p q := by
  unfold padTL cumsumH cumsumW boxSum
  simp only
  split
  · rename_i h
    rcases h with h | h <;> subst h <;> simp
  · rename_i h
    push_neg at h
    obtain ⟨p', rfl⟩ := Nat.exists_eq_succ_of_ne_zero h.1
    obtain ⟨q', rfl⟩ := Nat.exists_eq_succ_of_ne_zero h.2
    simp [Nat.succ_sub_one]

lemma boxSum_corner (x : Tensor4) (b c i j k1 k2 : ℕ) :
    boxSum x b c (i + k1) (j + k2) + boxSum x b c i j -
      boxSum x b c i (j + k2) - boxSum x b c (i + k1) j =
      ∑ a ∈ Finset.range k1, ∑ t ∈ Finset.range k2, x.val b c (i + a) (j + t) := by
  unfold boxSum
  rw [Finset.sum_range_add (fun a => ∑ t ∈ Finset.range (j + k2), x.val b c a t) i k1,
    Finset.sum_range_add (fun a => ∑ t ∈ Finset.range j, x.val b c a t) i k1]
  have hrow : ∀ a, ∑ t ∈ Finset.range (j + k2), x.val b c a t =
      (∑ t ∈ Finset.range j, x.val b c a t) +
        ∑ t ∈ Finset.range k2, x.val b c a (j + t) :=
    fun a => Finset.sum_range_add (fun t => x.val b c a t) j k2
  simp only [hrow, Finset.sum_add_distrib]
  ring

/-- C1: on the exact (`fast_imp=False`) integral-image branch of
`AvgPool2d.forward`, taken when the kernel does not cover the whole feature
map, the value at every valid output position `(i, j)` is exactly the
arithmetic mean of the input over the `k1 × k2` window with top-left corner
`(i, j)`, where `k1 = min(h, kernel_size[0])` and
`k2 = min(w, kernel_size[1])` — the integral-image computation refines the
naive sliding-window mean under exact arithmetic. -/
theorem claim1_slow_branch_is_window_mean (x : Tensor4) (k : ℕ × ℕ)
    (hk1 : 1 ≤ k.1) (hk2 : 1 ≤ k.2) (hglob : ¬(x.h ≤ k.1 ∧ x.w ≤ k.2))
    (b c i j : ℕ) (hi : i + min x.h k.1 ≤ x.h) (hj : j + min x.w k.2 ≤ x.w) :
    (slowBranch k x).val b c i j =
      windowMean x (min x.h k.1) (min x.w k.2) b c i j := by
  unfold slowBranch windowMean
  simp only
  rw [padTL_cumsum_val, padTL_cumsum_val, padTL_cumsum_val, padTL_cumsum_val,
    boxSum_corner]

/-- Witness for C1 at a concrete tensor and kernel. -/
theorem claim1_witness :
    (1 ≤ (1, 2).1 ∧ ¬(exX.h ≤ 1 ∧ exX.w ≤ 2)) ∧
      (slowBranch (1, 2) exX).val 0 0 1 2 =
        windowMean exX (min exX.h 1) (min exX.w 2) 0 0 1 2 :=
  ⟨⟨by decide, by decide⟩,
    claim1_slow_branch_is_window_mean exX (1, 2) (by decide) (by decide)
      (by decide) 0 0 1 2 (by decide) (by decide)⟩

lemma resolveState_of_kernel_some (st : AvgPool2d) (x : Tensor4) (k : ℕ × ℕ)
    (h : st.kernel_size = some k) : resolveState st x = some st := by
  unfold resolveState
  rw [if_neg]
  simp [h]

lemma forward_map_fst (st : AvgPool2d) (x : Tensor4)
    (hs : (AvgPool2d.forward st x).isSome = true) :
    (AvgPool2d.forward st x).map Prod.fst = resolveState st x := by
  unfold AvgPool2d.forward at hs ⊢
  cases hres : resolveState st x with
  | none => rw [hres] at hs; simp at hs
  | some st1 =>
    rw [hres] at hs
    simp only [Option.some_bind] at hs ⊢
    cases hk : st1.kernel_size with
    | none => rw [hk] at hs; simp at hs
    | some k =>
      rw [hk] at hs
      simp only [Option.some_bind] at hs ⊢
      by_cases hg : x.h ≤ k.1 ∧ x.w ≤ k.2
      · simp [hg]
      · simp only [if_neg hg] at hs ⊢
        cases hbr : (if st1.fast_imp then fastBranch st1 k x
            else some (slowBranch k x)) with
        | none => rw [hbr] at hs; simp at hs
        | some out0 =>
          rw [hbr] at hs
          simp only [Option.some_bind] at hs ⊢
          cases hap : (if st1.auto_pad then autoPadOpt x out0 else some out0) with
          | none => rw [hap] at hs; simp at hs
          | some out1 => simp

/-- C7: when the (already resolved) kernel covers the whole spatial extent,
`AvgPool2d.forward` returns adaptive average pooling to 1x1 — each output
value is the mean of the corresponding channel's entire `h × w` feature
map — and it does so identically for `fast_imp=True` and `fast_imp=False`. -/
theorem claim7_global_pool_flag_independent (st : AvgPool2d) (x : Tensor4)
    (k : ℕ × ℕ) (hk : st.kernel_size = some k)
    (h1 : x.h ≤ k.1) (h2 : x.w ≤ k.2) (hh : 0 < x.h) (hw : 0 < x.w) :
    AvgPool2d.forward { st with fast_imp := true } x =
      some ({ st with fast_imp := true }, adaptiveAvgPool1 x) ∧
    AvgPool2d.forward { st with fast_imp := false } x =
      some ({ st with fast_imp := false }, adaptiveAvgPool1 x) ∧
    (adaptiveAvgPool1 x).h = 1 ∧ (adaptiveAvgPool1 x).w = 1 ∧
    ∀ b c, (adaptiveAvgPool1 x).val b c 0 0 = windowMean x x.h x.w b c 0 0 := by
  refine ⟨?_, ?_, rfl, rfl, ?_⟩
  · unfold AvgPool2d.forward
    rw [resolveState_of_kernel_some _ x k (by simpa using hk)]
    simp only [Option.some_bind]
    rw [show ({ st with fast_imp := true } : AvgPool2d).kernel_size = some k from hk]
    simp [h1, h2]
  · unfold AvgPool2d.forward
    rw [resolveState_of_kernel_some _ x k (by simpa using hk)]
    simp only [Option.some_bind]
    rw [show ({ st with fast_imp := false } : AvgPool2d).kernel_size = some k from hk]
    simp [h1, h2]
  · intro b c
    unfold adaptiveAvgPool1 windowMean
    simp

/-- Witness for C7 at a concrete module state and tensor. -/
theorem claim7_witness :
    exPoolG.kernel_size = some (5, 5) ∧
      AvgPool2d.forward { exPoolG with fast_imp := true } exX =
        some ({ exPoolG with fast_imp := true }, adaptiveAvgPool1 exX) ∧
      (adaptiveAvgPool1 exX).h = 1 :=
  ⟨rfl,
    (claim7_global_pool_flag_independent exPoolG exX (5, 5) rfl (by decide)
        (by decide) (by decide) (by decide)).1,
    (claim7_global_pool_flag_independent exPoolG exX (5, 5) rfl (by decide)
        (by decide) (by decide) (by decide)).2.2.1⟩

/-- C9: `AvgPool2d.forward` is stateful exactly as documented. On a call
with `kernel_size` still unset, the returned module state carries the kernel
computed from this input's shape and `train_size` and the recomputed
`max_r1`/`max_r2` and normalised `base_size`, every other attribute being
untouched (the record update names exactly the four written attributes); on
any call with `kernel_size` already set — whatever the input's spatial
size — the state is returned entirely unchanged, so the stored kernel is
never recomputed. -/
theorem claim9_forward_state_effects :
    (∀ (st : AvgPool2d) (x : Tensor4) (bs : ℕ ⊕ ℕ × ℕ) (ts : ℕ × ℕ × ℕ × ℕ),
      st.kernel_size = none → st.base_size = some bs → st.train_size = some ts →
      (AvgPool2d.forward st x).isSome = true →
      (AvgPool2d.forward st x).map Prod.fst = some { st with
        base_size := some (.inr (toPair bs))
        kernel_size := some (x.h * (toPair bs).1 / (tsLast2 ts).1,
                             x.w * (toPair bs).2 / (tsLast2 ts).2)
        max_r1 := max 1 (st.rs.headI * x.h / (tsLast2 ts).1)
        max_r2 := max 1 (st.rs.headI * x.w / (tsLast2 ts).2) }) ∧
    (∀ (st : AvgPool2d) (x : Tensor4) (k : ℕ × ℕ),
      st.kernel_size = some k →
      (AvgPool2d.forward st x).isSome = true →
      (AvgPool2d.forward st x).map Prod.fst = some st) := by
  constructor
  · intro st x bs ts hkn hbs hts hsome
    rw [forward_map_fst st x hsome]
    cases hbt : baseTruthy st.base_size with
    | false =>
      exfalso
      have hres : resolveState st x = some st := by
        unfold resolveState
        rw [if_neg]
        simp [hbt]
      unfold AvgPool2d.forward at hsome
      rw [hres] at hsome
      simp [hkn] at hsome
    | true =>
      unfold resolveState
      rw [if_pos ⟨hkn, hbt⟩, hbs, hts]
  · intro st x k hk hsome
    rw [forward_map_fst st x hsome]
    exact resolveState_of_kernel_some st x k hk

/-- Witness for C9: a first call that resolves the kernel from the input
shape, and a call on a module with an explicit kernel that leaves the state
unchanged. -/
theorem claim9_witness :
    (AvgPool2d.forward exPoolR exX).isSome = true ∧
    (AvgPool2d.forward exPoolR exX).map Prod.fst = some { exPoolR with
      base_size := some (.inr (toPair (.inr (6, 6))))
      kernel_size := some (exX.h * (toPair (.inr (6, 6))).1 / (tsLast2 (1, 3, 4, 4)).1,
                           exX.w * (toPair (.inr (6, 6))).2 / (tsLast2 (1, 3, 4, 4)).2)
      max_r1 := max 1 (exPoolR.rs.headI * exX.h / (tsLast2 (1, 3, 4, 4)).1)
      max_r2 := max 1 (exPoolR.rs.headI * exX.w / (tsLast2 (1, 3, 4, 4)).2) } ∧
    (AvgPool2d.forward exPoolG exX).map Prod.fst = some exPoolG :=
  ⟨by decide,
    claim9_forward_state_effects.1 exPoolR exX (.inr (6, 6)) (1, 3, 4, 4)
      rfl rfl rfl (by decide),
    claim9_forward_state_effects.2 exPoolG exX (5, 5) rfl (by decide)⟩

lemma slowBranch_le (k : ℕ × ℕ) (x : Tensor4) :
    (slowBranch k x).h ≤ x.h ∧ (slowBranch k x).w ≤ x.w := by
  unfold slowBranch padTL cumsumH cumsumW sliceLen
  simp only
  constructor <;> split <;> omega

lemma subsample_window_le (H r kk : ℕ) (hr : 0 < r)
    (hkk : sliceLen ((H + (r - 1)) / r) kk ≠ 0) :
    sliceLen ((H + (r - 1)) / r) kk * r ≤ H := by
  unfold sliceLen at *
  by_cases h0 : kk = 0
  · simp [h0] at hkk
  · rw [if_neg h0] at hkk ⊢
    have h1 : (H + (r - 1)) / r * r ≤ H + (r - 1) := Nat.div_mul_le_self _ _
    have h2 : r ≤ kk * r := Nat.le_mul_of_pos_left r (by omega)
    rw [Nat.sub_mul]
    omega

lemma fastBranch_le (st : AvgPool2d) (k : ℕ × ℕ) (x t : Tensor4)
    (hslide : ¬(x.h ≤ k.1 ∧ x.w ≤ k.2)) (h : fastBranch st k x = some t) :
    t.h ≤ x.h ∧ t.w ≤ x.w := by
  unfold fastBranch at h
  rw [if_neg hslide] at h
  cases hra : (rCandidates st.rs x.h).head? with
  | none => rw [hra] at h; simp at h
  | some ra =>
    cases hrb : (rCandidates st.rs x.w).head? with
    | none => rw [hra, hrb] at h; simp at h
    | some rb =>
      rw [hra, hrb] at h
      simp only at h
      split at h
      · exact absurd h (by simp)
      · rename_i hrz
        push_neg at hrz
        split at h
        · exact absurd h (by simp)
        · rename_i hez
          push_neg at hez
          simp only [Option.some.injEq] at h
          subst h
          simp only
          constructor
          · exact subsample_window_le x.h (min st.max_r1 ra) _ (by omega) hez.1
          · exact subsample_window_le x.w (min st.max_r2 rb) _ (by omega) hez.2

lemma autoPadOpt_shape (x out0 out1 : Tensor4) (h : autoPadOpt x out0 = some out1)
    (hh : out0.h ≤ x.h) (hw : out0.w ≤ x.w) : out1.h = x.h ∧ out1.w = x.w := by
  unfold autoPadOpt at h
  split at h
  · exact absurd h (by simp)
  · simp only [Option.some.injEq] at h
    subst h
    simp only
    omega

/-- C10: whenever `AvgPool2d.forward` returns through a sliding-window
branch (the resolved kernel does not cover the whole spatial extent) with
`auto_pad=True`, the replicate padding by
`((w - _w) // 2, (w - _w + 1) // 2, (h - _h) // 2, (h - _h + 1) // 2)`
restores the output to exactly the input's spatial size `(h, w)`. -/
theorem claim10_auto_pad_preserves_shape (st st1 : AvgPool2d) (x : Tensor4)
    (k : ℕ × ℕ) (hres : resolveState st x = some st1)
    (hk : st1.kernel_size = some k) (hslide : ¬(x.h ≤ k.1 ∧ x.w ≤ k.2))
    (hpad : st1.auto_pad = true)
    (hsome : (AvgPool2d.forward st x).isSome = true) :
    (AvgPool2d.forward st x).map (fun p => (p.2.h, p.2.w)) = some (x.h, x.w) := by
  unfold AvgPool2d.forward at hsome ⊢
  rw [hres] at hsome ⊢
  simp only [Option.some_bind] at hsome ⊢
  rw [hk] at hsome ⊢
  simp only [Option.some_bind, if_neg hslide, hpad, if_true] at hsome ⊢
  cases hbr : (if st1.fast_imp then fastBranch st1 k x
      else some (slowBranch k x)) with
  | none => rw [hbr] at hsome; simp at hsome
  | some out0 =>
    rw [hbr] at hsome
    simp only [Option.some_bind] at hsome ⊢
    have hle : out0.h ≤ x.h ∧ out0.w ≤ x.w := by
      by_cases hf : st1.fast_imp
      · rw [if_pos hf] at hbr
        exact fastBranch_le st1 k x out0 hslide hbr
      · rw [if_neg hf] at hbr
        simp only [Option.some.injEq] at hbr
        subst hbr
        exact slowBranch_le k x
    cases hap : autoPadOpt x out0 with
    | none => rw [hap] at hsome; simp at hsome
    | some out1 =>
      have := autoPadOpt_shape x out0 out1 hap hle.1 hle.2
      simp [this.1, this.2]

/-- Witness for C10 at a concrete 3x4 tensor and 2x2 kernel. -/
theorem claim10_witness :
    resolveState exPoolS exX = some exPoolS ∧
      (AvgPool2d.forward exPoolS exX).map (fun p => (p.2.h, p.2.w)) =
        some (exX.h, exX.w) :=
  ⟨by decide,
    claim10_auto_pad_preserves_shape exPoolS exPoolS exX (2, 2) (by decide)
      rfl (by decide) rfl (by decide)⟩

/-- C8: in the fast branch the list comprehensions
`[r for r in self.rs if h % r == 0]` and `[r for r in self.rs if w % r == 0]`
are never empty for any positive spatial size (since `self.rs` as set by
`__init__` ends in 1, which divides everything), so the `[0]` access is
always defined and the selected rate is at least 1. -/
theorem claim8_rate_selection_safe (ks : Option (ℕ × ℕ))
    (bs : Option (ℕ ⊕ ℕ × ℕ)) (ap fi : Bool)
    (ts : Option (ℕ × ℕ × ℕ × ℕ)) (d : ℕ) (hd : 0 < d) :
    rCandidates (AvgPool2d.init ks bs ap fi ts).rs d ≠ [] ∧
      1 ≤ (rCandidates (AvgPool2d.init ks bs ap fi ts).rs d).headI := by
  have hrs : (AvgPool2d.init ks bs ap fi ts).rs = [5, 4, 3, 2, 1] := rfl
  unfold rCandidates
  rw [hrs]
  have hmem : (1 : ℕ) ∈ List.filter (fun r => d % r = 0) [5, 4, 3, 2, 1] := by
    rw [List.mem_filter]
    exact ⟨by decide, by simp [Nat.mod_one]⟩
  have hne : List.filter (fun r => d % r = 0) [5, 4, 3, 2, 1] ≠ [] :=
    List.ne_nil_of_mem hmem
  refine ⟨hne, ?_⟩
  cases hl : List.filter (fun r => d % r = 0) [5, 4, 3, 2, 1] with
  | nil => exact absurd hl hne
  | cons a l =>
    have ha : a ∈ List.filter (fun r => d % r = 0) [5, 4, 3, 2, 1] := by
      rw [hl]; exact List.mem_cons_self a l
    have ha2 : a ∈ [5, 4, 3, 2, 1] := (List.mem_filter.mp ha).1
    simp only [List.headI_cons]
    fin_cases ha2 <;> omega

/-- Witness for C8 at a concrete spatial size. -/
theorem claim8_witness :
    0 < 7 ∧
      (rCandidates (AvgPool2d.init none none true false none).rs 7 ≠ [] ∧
        1 ≤ (rCandidates (AvgPool2d.init none none true false none).rs 7).headI) :=
  ⟨by decide, claim8_rate_selection_safe none none true false none 7 (by decide)⟩

mutual

theorem replace_layers_allGood (bs : Option (ℕ ⊕ ℕ × ℕ))
    (ts : Option (ℕ × ℕ × ℕ × ℕ)) (fi : Bool) :
    ∀ m : Module, allAdaptiveOne m = true →
      replace_layers bs ts fi m = (rewriteSpec bs ts fi m, true)
  | .adaptive sz, _ => by simp [replace_layers, rewriteSpec]
  | .pool st, _ => by simp [replace_layers, rewriteSpec]
  | .other tag cs, h => by
    have hc := replaceChildren_allGood bs ts fi cs
      (by simpa [allAdaptiveOne] using h)
    simp [replace_layers, rewriteSpec, hc]

theorem replaceChildren_allGood (bs : Option (ℕ ⊕ ℕ × ℕ))
    (ts : Option (ℕ × ℕ × ℕ × ℕ)) (fi : Bool) :
    ∀ cs : Children, allAdaptiveOneC cs = true →
      replaceChildren bs ts fi cs = (rewriteSpecC bs ts fi cs, true)
  | .nil, _ => by simp [replaceChildren, rewriteSpecC]
  | .cons nm m rest, h => by
    have hm : allAdaptiveOne m = true := by
      have := h
      simp [allAdaptiveOneC, Bool.and_eq_true] at this
      exact this.1
    have hr : allAdaptiveOneC rest = true := by
      have := h
      simp [allAdaptiveOneC, Bool.and_eq_true] at this
      exact this.2
    have h1 := replace_layers_allGood bs ts fi m hm
    have h2 := replaceChildren_allGood bs ts fi rest hr
    cases m with
    | adaptive sz =>
      have hsz : sz = 1 := by simpa [allAdaptiveOne] using hm
      subst hsz
      simp [replaceChildren, replace_layers, rewriteSpec, rewriteSpecC, h2]
    | pool st =>
      simp [replaceChildren, replace_layers, rewriteSpec, rewriteSpecC, h2]
    | other tag cs' =>
      simp only [replaceChildren, h1]
      simp [rewriteSpec, rewriteSpecC, h2]

end

theorem rewriteSpecC_noAdapt (bs : Option (ℕ ⊕ ℕ × ℕ))
    (ts : Option (ℕ × ℕ × ℕ × ℕ)) (fi : Bool) :
    ∀ cs : Children, containsAdaptiveC (rewriteSpecC bs ts fi cs) = false
  | .nil => by simp [rewriteSpecC, containsAdaptiveC]
  | .cons nm m rest => by
    cases m with
    | adaptive sz =>
      simp [rewriteSpecC, containsAdaptiveC, containsAdaptive,
        rewriteSpecC_noAdapt bs ts fi rest]
    | pool st =>
      simp [rewriteSpecC, containsAdaptiveC, containsAdaptive, rewriteSpec,
        rewriteSpecC_noAdapt bs ts fi rest]
    | other tag cs' =>
      simp [rewriteSpecC, containsAdaptiveC, containsAdaptive, rewriteSpec,
        rewriteSpecC_noAdapt bs ts fi cs', rewriteSpecC_noAdapt bs ts fi rest]

theorem replaceChildren_ok (bs : Option (ℕ ⊕ ℕ × ℕ))
    (ts : Option (ℕ × ℕ × ℕ × ℕ)) (fi : Bool) :
    ∀ cs : Children, (replaceChildren bs ts fi cs).2 = !containsBadAdaptiveC cs
  | .nil => by simp [replaceChildren, containsBadAdaptiveC]
  | .cons nm m rest => by
    cases m with
    | adaptive sz =>
      by_cases hsz : sz = 1
      · subst hsz
        simp [replaceChildren, replace_layers, containsBadAdaptiveC,
          containsBadAdaptive, replaceChildren_ok bs ts fi rest]
      · simp [replaceChildren, replace_layers, containsBadAdaptiveC,
          containsBadAdaptive, hsz]
    | pool st =>
      simp [replaceChildren, replace_layers, containsBadAdaptiveC,
        containsBadAdaptive, replaceChildren_ok bs ts fi rest]
    | other tag cs' =>
      have hin := replaceChildren_ok bs ts fi cs'
      cases hbad : containsBadAdaptiveC cs' with
      | true =>
        simp [replaceChildren, replace_layers, containsBadAdaptiveC,
          containsBadAdaptive, hin, hbad]
      | false =>
        simp [replaceChildren, replace_layers, containsBadAdaptiveC,
          containsBadAdaptive, hin, hbad, replaceChildren_ok bs ts fi rest]

theorem replace_layers_ok (bs : Option (ℕ ⊕ ℕ × ℕ))
    (ts : Option (ℕ × ℕ × ℕ × ℕ)) (fi : Bool) (m : Module) :
    (replace_layers bs ts fi m).2 = !hasBadAdaptiveSub m := by
  cases m with
  | adaptive sz => simp [replace_layers, hasBadAdaptiveSub]
  | pool st => simp [replace_layers, hasBadAdaptiveSub]
  | other tag cs =>
    simp [replace_layers, hasBadAdaptiveSub, replaceChildren_ok bs ts fi cs]

/-- C2: on a module tree whose adaptive-pooling nodes all have
`output_size == 1`, `replace_layers` succeeds and produces exactly the
reference rewrite: every `nn.AdaptiveAvgPool2d` submodule is replaced by a
fresh `AvgPool2d` carrying the given `base_size`, `fast_imp` and
`train_size`, no submodule of any other class is replaced, and afterwards no
`nn.AdaptiveAvgPool2d` submodule remains anywhere in the model. -/
theorem claim2_replace_layers_full_rewrite (bs : Option (ℕ ⊕ ℕ × ℕ))
    (ts : Option (ℕ × ℕ × ℕ × ℕ)) (fi : Bool) (m : Module)
    (h : allAdaptiveOne m = true) :
    replace_layers bs ts fi m = (rewriteSpec bs ts fi m, true) ∧
      hasAdaptiveSub (rewriteSpec bs ts fi m) = false := by
  refine ⟨replace_layers_allGood bs ts fi m h, ?_⟩
  cases m with
  | adaptive sz => rfl
  | pool st => rfl
  | other tag cs =>
    simpa [rewriteSpec, hasAdaptiveSub] using rewriteSpecC_noAdapt bs ts fi cs

/-- Witness for C2 at a concrete nested tree. -/
theorem claim2_witness :
    allAdaptiveOne goodTree = true ∧
      (replace_layers none none false goodTree =
          (rewriteSpec none none false goodTree, true) ∧
        hasAdaptiveSub (rewriteSpec none none false goodTree) = false) :=
  ⟨by decide, claim2_replace_layers_full_rewrite none none false goodTree (by decide)⟩

/-- C3: `replace_layers` raises (the `assert m.output_size == 1`) exactly
when an `nn.AdaptiveAvgPool2d` submodule with `output_size != 1` is present,
and the rewrite is not atomic: on `badTree` the assertion fires at the
second child while the first adaptive child has already been replaced and
later siblings are left untouched. -/
theorem claim3_assert_iff_bad_adaptive :
    (∀ (bs : Option (ℕ ⊕ ℕ × ℕ)) (ts : Option (ℕ × ℕ × ℕ × ℕ)) (fi : Bool)
      (m : Module),
      (replace_layers bs ts fi m).2 = false ↔ hasBadAdaptiveSub m = true) ∧
    (replace_layers none none false badTree).2 = false ∧
    (replace_layers none none false badTree).1 =
      .other 0 (.cons 1 (.pool (mkPool none none false))
        (.cons 2 (.adaptive 5) (.cons 3 (.adaptive 1) .nil))) := by
  refine ⟨?_, by decide, by decide⟩
  intro bs ts fi m
  rw [replace_layers_ok]
  cases hasBadAdaptiveSub m <;> simp

lemma flatMap_range_length {α : Type} (f : ℕ → List α) (k : ℕ)
    (hk : ∀ i, (f i).length = k) :
    ∀ n : ℕ, ((List.range n).flatMap f).length = n * k := by
  intro n
  induction n with
  | zero => simp
  | succ n ih =>
    rw [List.range_succ, List.flatMap_append]
    simp [List.flatMap_cons, List.flatMap_nil, ih, hk, Nat.succ_mul]

lemma flatMap_range_getD {α : Type} (f : ℕ → List α) (d : α) (k : ℕ)
    (hk : ∀ a, (f a).length = k) :
    ∀ (n i j : ℕ), i < n → j < k →
      ((List.range n).flatMap f).getD (i * k + j) d = (f i).getD j d := by
  intro n
  induction n with
  | zero => intro i j hi; omega
  | succ n ih =>
    intro i j hi hj
    rw [List.range_succ, List.flatMap_append]
    by_cases hin : i < n
    · rw [List.getD_append]
      · exact ih i j hin hj
      · rw [flatMap_range_length f k hk n]
        calc i * k + j < i * k + k := by omega
        _ = (i + 1) * k := by ring
        _ ≤ n * k := Nat.mul_le_mul_right k hin
    · have hieq : i = n := by omega
      subst hieq
      rw [List.getD_append_right]
      · rw [flatMap_range_length f k hk i]
        have hpos : i * k + j - i * k = j := by omega
        rw [hpos]
        simp [List.flatMap_cons, List.flatMap_nil]
      · rw [flatMap_range_length f k hk i]
        omega

lemma catDim1_val (C0 : ℕ) :
    ∀ (l : List Tensor4), (∀ t ∈ l, t.c = C0) →
      ∀ (q c b y xx : ℕ), q < l.length → c < C0 →
        (catDim1 l).val b (q * C0 + c) y xx = (l.getD q zeroT).val b c y xx := by
  intro l
  induction l with
  | nil => intro _ q c b y xx hq; simp at hq
  | cons t ts ih =>
    intro hC q c b y xx hq hc
    have htc : t.c = C0 := hC t (List.mem_cons_self t ts)
    cases q with
    | zero =>
      simp only [catDim1, List.getD_cons_zero, Nat.zero_mul, Nat.zero_add]
      rw [if_pos (htc ▸ hc)]
    | succ q' =>
      simp only [catDim1, List.getD_cons_succ]
      have hC0le : C0 ≤ (q' + 1) * C0 := Nat.le_mul_of_pos_left C0 (Nat.succ_pos q')
      rw [if_neg (by omega)]
      have hsub : (q' + 1) * C0 + c - t.c = q' * C0 + c := by
        rw [htc, Nat.succ_mul]
        omega
      rw [hsub]
      exact ih (fun t' ht' => hC t' (List.mem_cons_of_mem t ht')) q' c b y xx
        (by simpa using hq) hc

lemma chunkList_length (r : ℕ) (x : Tensor4) :
    (chunkList r x).length = r * r := by
  unfold chunkList
  rw [flatMap_range_length _ r (fun i => by simp) r]

lemma chunkList_mem_c (r : ℕ) (x : Tensor4) :
    ∀ t ∈ chunkList r x, t.c = x.c := by
  intro t ht
  unfold chunkList at ht
  simp only [List.mem_flatMap, List.mem_map] at ht
  obtain ⟨i, _, j, _, rfl⟩ := ht
  rfl

lemma chunkList_getD (r i j : ℕ) (x : Tensor4) (hi : i < r) (hj : j < r) :
    (chunkList r x).getD (i * r + j) zeroT = chunkSlice r i j x := by
  unfold chunkList
  rw [flatMap_range_getD _ zeroT r (fun a => by simp) r i j hi hj]
  rw [List.getD_eq_getElem _ _ (by simpa using hj)]
  simp [hj]

lemma gatherIndex_length (C r : ℕ) : (gatherIndex C r).length = C * r ^ 2 := by
  unfold gatherIndex
  rw [flatMap_range_length _ (r ^ 2) (fun i => by simp) C]

lemma gatherIndex_getD (C r c m : ℕ) (hc : c < C) (hm : m < r ^ 2) :
    (gatherIndex C r).getD (c * r ^ 2 + m) 0 = c + m * C := by
  unfold gatherIndex
  rw [flatMap_range_getD _ 0 (r ^ 2) (fun a => by simp) C c m hc hm]
  rw [List.getD_eq_getElem _ _ (by simpa using hm)]
  simp [hm]

lemma unpix_val (r : ℕ) (x : Tensor4) (b c i j y t : ℕ)
    (hc : c < x.c) (hi : i < r) (hj : j < r) :
    (UnPixelShuffle.forward r x).val b (c * r ^ 2 + (i * r + j)) y t =
      x.val b c (i + y * r) (j + t * r) := by
  unfold UnPixelShuffle.forward
  simp only
  have hm : i * r + j < r ^ 2 := by
    calc i * r + j < i * r + r := by omega
    _ = (i + 1) * r := by ring
    _ ≤ r * r := Nat.mul_le_mul_right r hi
    _ = r ^ 2 := by ring
  rw [gatherIndex_getD x.c r c (i * r + j) hc hm]
  rw [show c + (i * r + j) * x.c = (i * r + j) * x.c + c from by ring]
  rw [catDim1_val x.c (chunkList r x) (chunkList_mem_c r x) (i * r + j) c b y t
    (by rw [chunkList_length]; calc i * r + j < r ^ 2 := hm
        _ = r * r := by ring) hc]
  rw [chunkList_getD r i j x hi hj]
  rfl

/-- C4: `UnPixelShuffle(r).forward` on an `(N, C, H*r, W*r)` tensor has
output shape `(N, C*r^2, H, W)`, and output channel `c*r^2 + (i*r + j)` at
position `(y, x)` equals the input at channel `c`, position
`(y*r + i, x*r + j)`. -/
theorem claim4_unpixelshuffle_rearranges (r H W : ℕ) (x : Tensor4)
    (hr : 1 ≤ r) (hh : x.h = H * r) (hw : x.w = W * r)
    (b c i j y t : ℕ) (hc : c < x.c) (hi : i < r) (hj : j < r) :
    (UnPixelShuffle.forward r x).n = x.n ∧
    (UnPixelShuffle.forward r x).c = x.c * r ^ 2 ∧
    (UnPixelShuffle.forward r x).h = H ∧
    (UnPixelShuffle.forward r x).w = W ∧
    (UnPixelShuffle.forward r x).val b (c * r ^ 2 + (i * r + j)) y t =
      x.val b c (y * r + i) (t * r + j) := by
  refine ⟨rfl, gatherIndex_length x.c r, ?_, ?_, ?_⟩
  · show x.h / r = H
    rw [hh]
    exact Nat.mul_div_cancel H (by omega)
  · show x.w / r = W
    rw [hw]
    exact Nat.mul_div_cancel W (by omega)
  · rw [unpix_val r x b c i j y t hc hi hj, Nat.add_comm i (y * r),
      Nat.add_comm j (t * r)]

/-- Witness for C4 at a concrete 1x1x2x2 tensor with `r = 2`. -/
theorem claim4_witness :
    (1 ≤ 2 ∧ exY.h = 1 * 2) ∧
      (UnPixelShuffle.forward 2 exY).val 0 (0 * 2 ^ 2 + (1 * 2 + 0)) 0 0 =
        exY.val 0 0 (0 * 2 + 1) (0 * 2 + 0) :=
  ⟨⟨by decide, by decide⟩,
    (claim4_unpixelshuffle_rearranges 2 1 1 exY (by decide) (by decide)
        (by decide) 0 0 1 0 0 0 (by decide) (by decide) (by decide)).2.2.2.2⟩

/-- C5: applying `UnPixelShuffle(r).forward` and then the standard
pixel-shuffle rearrangement with upscale factor `r` (as `nn.PixelShuffle`
in `pixelshuffle_block`) recovers the original tensor: shape and every
in-range element are restored, so the two reshapes are mutually inverse
permutations of the elements. -/
theorem claim5_pixel_shuffle_inverse (r : ℕ) (x : Tensor4) (hr : 1 ≤ r)
    (hh : r ∣ x.h) (hw : r ∣ x.w) :
    (pixelShuffle r (UnPixelShuffle.forward r x)).n = x.n ∧
    (pixelShuffle r (UnPixelShuffle.forward r x)).c = x.c ∧
    (pixelShuffle r (UnPixelShuffle.forward r x)).h = x.h ∧
    (pixelShuffle r (UnPixelShuffle.forward r x)).w = x.w ∧
    ∀ b c y t, c < x.c →
      (pixelShuffle r (UnPixelShuffle.forward r x)).val b c y t =
        x.val b c y t := by
  have hrpos : 0 < r := hr
  refine ⟨rfl, ?_, ?_, ?_, ?_⟩
  · show (gatherIndex x.c r).length / r ^ 2 = x.c
    rw [gatherIndex_length x.c r]
    exact Nat.mul_div_cancel x.c (by positivity)
  · show x.h / r * r = x.h
    exact Nat.div_mul_cancel hh
  · show x.w / r * r = x.w
    exact Nat.div_mul_cancel hw
  · intro b c y t hc
    show (UnPixelShuffle.forward r x).val b (c * r ^ 2 + (y % r) * r + t % r)
      (y / r) (t / r) = x.val b c y t
    rw [Nat.add_assoc]
    rw [unpix_val r x b c (y % r) (t % r) (y / r) (t / r) hc
      (Nat.mod_lt y hrpos) (Nat.mod_lt t hrpos)]
    rw [Nat.mod_add_div' y r, Nat.mod_add_div' t r]

/-- Witness for C5 at a concrete 1x1x2x2 tensor with `r = 2`. -/
theorem claim5_witness :
    ((2:ℕ) ∣ exY.h) ∧
      (pixelShuffle 2 (UnPixelShuffle.forward 2 exY)).val 0 0 1 1 =
        exY.val 0 0 1 1 :=
  ⟨by decide,
    (claim5_pixel_shuffle_inverse 2 exY (by decide) (by decide)
        (by decide)).2.2.2.2 0 0 1 1 (by decide)⟩

lemma conv2dShape_same (inC outC k p N H W : ℕ) (hk : k = 2 * p + 1)
    (hH : 1 ≤ H) (hW : 1 ≤ W) :
    conv2dShape inC outC k p 1 ⟨N, inC, H, W⟩ = some ⟨N, outC, H, W⟩ := by
  subst hk
  unfold conv2dShape
  rw [if_pos ⟨rfl, by show 2 * p + 1 ≤ H + 2 * p; omega,
    by show 2 * p + 1 ≤ W + 2 * p; omega⟩]
  simp only [Option.some.injEq, Shape4.mk.injEq, true_and]
  constructor <;> omega

lemma conv_layerShape_same (inC outC k : ℕ) (dw : Bool) (N H W : ℕ)
    (hk : k = 3 ∨ k = 1) (hH : 1 ≤ H) (hW : 1 ≤ W) :
    conv_layerShape inC outC k dw ⟨N, inC, H, W⟩ = some ⟨N, outC, H, W⟩ := by
  have hk2 : k = 2 * ((k - 1) / 2) + 1 := by rcases hk with h | h <;> subst h <;> rfl
  unfold conv_layerShape
  cases dw with
  | false =>
    rw [if_neg (by simp)]
    exact conv2dShape_same inC outC k _ N H W hk2 hH hW
  | true =>
    rw [if_pos rfl]
    rw [conv2dShape_same inC outC k _ N H W hk2 hH hW]
    exact conv2dShape_same outC outC 1 0 N H W rfl hH hW

lemma elemwiseShape_same (s : Shape4) : elemwiseShape s s = some s := by
  unfold elemwiseShape
  rw [if_pos rfl]

lemma ESAShape_same (N H W : ℕ) (hH : 15 ≤ H) (hW : 15 ≤ W) :
    ESAShape 16 46 ⟨N, 46, H, W⟩ = some ⟨N, 46, H, W⟩ := by
  have s2 : conv2dShape 16 16 3 0 2 ⟨N, 16, H, W⟩ =
      some ⟨N, 16, (H - 3) / 2 + 1, (W - 3) / 2 + 1⟩ := by
    unfold conv2dShape
    rw [if_pos ⟨rfl, by show 3 ≤ H + 2 * 0; omega, by show 3 ≤ W + 2 * 0; omega⟩]
    simp only [Option.some.injEq, Shape4.mk.injEq, true_and]
    constructor <;> omega
  have s3 : maxPool2dShape 7 3 ⟨N, 16, (H - 3) / 2 + 1, (W - 3) / 2 + 1⟩ =
      some ⟨N, 16, ((H - 3) / 2 + 1 - 7) / 3 + 1, ((W - 3) / 2 + 1 - 7) / 3 + 1⟩ := by
    unfold maxPool2dShape
    rw [if_pos ⟨by show 7 ≤ (H - 3) / 2 + 1; omega, by show 7 ≤ (W - 3) / 2 + 1; omega⟩]
  have s5 : interpToShape H W
      ⟨N, 16, ((H - 3) / 2 + 1 - 7) / 3 + 1, ((W - 3) / 2 + 1 - 7) / 3 + 1⟩ =
      some ⟨N, 16, H, W⟩ := by
    unfold interpToShape
    rw [if_pos ⟨by show 0 < ((H - 3) / 2 + 1 - 7) / 3 + 1; omega,
      by show 0 < ((W - 3) / 2 + 1 - 7) / 3 + 1; omega⟩]
  unfold ESAShape
  simp only [Option.bind_eq_bind']
  rw [conv2dShape_same 46 16 1 0 N H W rfl (by omega) (by omega)]
  simp only [Option.some_bind]
  rw [s2]
  simp only [Option.some_bind]
  rw [s3]
  simp only [Option.some_bind]
  rw [conv2dShape_same 16 16 3 1 N (((H - 3) / 2 + 1 - 7) / 3 + 1)
    (((W - 3) / 2 + 1 - 7) / 3 + 1) rfl (by omega) (by omega)]
  simp only [Option.some_bind]
  rw [s5]
  simp only [Option.some_bind]
  rw [conv2dShape_same 16 16 1 0 N H W rfl (by omega) (by omega)]
  simp only [Option.some_bind]
  rw [elemwiseShape_same ⟨N, 16, H, W⟩]
  simp only [Option.some_bind]
  rw [conv2dShape_same 16 46 1 0 N H W rfl (by omega) (by omega)]
  simp only [Option.some_bind]
  exact elemwiseShape_same ⟨N, 46, H, W⟩

lemma RLFBShape_same (N H W : ℕ) (hH : 15 ≤ H) (hW : 15 ≤ W) :
    RLFBShape 46 48 ⟨N, 46, H, W⟩ = some ⟨N, 46, H, W⟩ := by
  unfold RLFBShape
  simp only [Option.bind_eq_bind']
  rw [conv_layerShape_same 46 48 3 false N H W (Or.inl rfl) (by omega) (by omega)]
  simp only [Option.some_bind]
  rw [conv_layerShape_same 48 48 3 true N H W (Or.inl rfl) (by omega) (by omega)]
  simp only [Option.some_bind]
  rw [conv_layerShape_same 48 46 3 false N H W (Or.inl rfl) (by omega) (by omega)]
  simp only [Option.some_bind]
  rw [elemwiseShape_same ⟨N, 46, H, W⟩]
  simp only [Option.some_bind]
  rw [conv_layerShape_same 46 46 1 false N H W (Or.inr rfl) (by omega) (by omega)]
  simp only [Option.some_bind]
  exact ESAShape_same N H W hH hW

/-- C6 counterexample: on a 1x3x2x2 input, `RLFN_Prune.forward` raises (the
strided 3x3 convolution inside ESA has a non-positive output size), so the
forward pass does not return a `(N, 3, 4H, 4W)` tensor for every input. -/
theorem claim6_counterexample : RLFN_PruneShape ⟨1, 3, 2, 2⟩ = none := by decide

/-- C6 (amended): for every input of shape `(N, 3, H, W)` with `H ≥ 15` and
`W ≥ 15` (so that the strided convolution and the 7x7/3 max-pool inside ESA
have positive output sizes), `RLFN_Prune` with its default configuration
(`in_channels = out_channels = 3`, `upscale = 4`) maps the input to an
output of shape `(N, 3, 4H, 4W)`. -/
theorem claim6_upscales_by_four (N H W : ℕ) (hH : 15 ≤ H) (hW : 15 ≤ W) :
    RLFN_PruneShape ⟨N, 3, H, W⟩ = some ⟨N, 3, 4 * H, 4 * W⟩ := by
  have sps : pixelShuffleShape 4 ⟨N, 3 * 4 ^ 2, H, W⟩ = some ⟨N, 3, H * 4, W * 4⟩ := by
    unfold pixelShuffleShape
    rw [if_pos (show (4 : ℕ) ^ 2 ∣ 3 * 4 ^ 2 from Dvd.intro 3 rfl)]
    norm_num
  have sit : interpScaleShape 4 (⟨N, 3, H, W⟩ : Shape4) = some ⟨N, 3, H * 4, W * 4⟩ := by
    unfold interpScaleShape
    rw [if_pos ⟨by show 0 < H; omega, by show 0 < W; omega⟩]
  unfold RLFN_PruneShape
  simp only [Option.bind_eq_bind']
  rw [conv_layerShape_same 3 46 3 false N H W (Or.inl rfl) (by omega) (by omega)]
  simp only [Option.some_bind]
  rw [RLFBShape_same N H W hH hW]
  simp only [Option.some_bind]
  rw [RLFBShape_same N H W hH hW]
  simp only [Option.some_bind]
  rw [RLFBShape_same N H W hH hW]
  simp only [Option.some_bind]
  rw [RLFBShape_same N H W hH hW]
  simp only [Option.some_bind]
  rw [conv_layerShape_same 46 46 3 false N H W (Or.inl rfl) (by omega) (by omega)]
  simp only [Option.some_bind]
  rw [elemwiseShape_same ⟨N, 46, H, W⟩]
  simp only [Option.some_bind]
  rw [conv_layerShape_same 46 (3 * 4 ^ 2) 3 false N H W (Or.inl rfl)
    (by omega) (by omega)]
  simp only [Option.some_bind]
  rw [sps]
  simp only [Option.some_bind]
  rw [sit]
  simp only [Option.some_bind]
  rw [elemwiseShape_same ⟨N, 3, H * 4, W * 4⟩]
  simp only [Option.some.injEq, Shape4.mk.injEq, true_and]
  constructor <;> ring

/-- Witness for the amended C6 at the smallest admissible spatial size. -/
theorem claim6_witness :
    15 ≤ 15 ∧ RLFN_PruneShape ⟨1, 3, 15, 20⟩ = some ⟨1, 3, 4 * 15, 4 * 20⟩ :=
  ⟨by decide, claim6_upscales_by_four 1 15 20 (by decide) (by decide)⟩

end Spec2Proof
